import Mathlib

/-!
# Verification of the runme core: markdown block extraction and block execution

This file gives a shallow embedding of the `runme` tool's two core
subsystems and proves the stated properties about them.

* `src/markdown.rs` — the block extractor is modelled as a fold over the
  markdown parser's structural event stream (`Event`), exactly mirroring
  the `while let Some(event) = parser.next()` loop of `extract_blocks`.
  The upstream `pulldown_cmark` parser that produces the events is an
  external crate and is not modelled; the extractor is verified for every
  possible event stream.
* `src/runner/mod.rs` — `execute` is modelled as a pure function over a
  `Sandbox` oracle.  A sandbox run's observable behaviour (the ordered
  stdout/stderr line chunks delivered to the `OutputSink`, together with
  the returned `CommandStatus`) is packaged in `RunOutcome`; the oracle's
  `Nat` argument counts prior invocations inside the same `execute` call,
  abstracting the `&mut self` state of the backend.  The model also
  returns the trace of `(trimmed line, argv)` pairs passed to
  `Sandbox::run`, the pure rendering of the call's side effect on the
  backend, so that "command X was (not) run" is expressible.
* `src/runner/docker.rs` — the containerized backend's command
  construction and image resolution are modelled in `DockerSandbox`;
  `fs::canonicalize` and the environment read are model parameters.
* The external `shlex` crate's word splitting, which `execute` calls, is
  modelled by `shlex_split` (fuel-based encoding of its state machine).

Rust string primitives used by the source (`str::trim`, `str::lines`,
`starts_with`, `to_ascii_lowercase`, `split_whitespace`, `split_once`)
are modelled over `List Char` for their ASCII-relevant behaviour.
-/

/-! ## Modelled Rust string primitives -/

/-- ASCII whitespace as recognised by Rust's `char::is_whitespace`
(restricted to the ASCII range, which is what the tool's inputs use). -/
def rustIsWs (c : Char) : Bool :=
  c = ' ' || c = '\t' || c = '\n' || c = '\r' || c = Char.ofNat 11 || c = Char.ofNat 12

/-- Model of Rust `str::trim`: remove leading and trailing whitespace. -/
def strTrim (s : String) : String :=
  String.mk (((s.data.dropWhile rustIsWs).reverse.dropWhile rustIsWs).reverse)

/-- Model of Rust `str::starts_with`. -/
def strStartsWith (s pat : String) : Bool :=
  pat.data.isPrefixOf s.data

/-- Model of Rust `str::ends_with`. -/
def strEndsWith (s pat : String) : Bool :=
  pat.data.isSuffixOf s.data

/-- Model of Rust `char::to_ascii_lowercase`. -/
def charAsciiLower (c : Char) : Char :=
  if 65 ≤ c.toNat ∧ c.toNat ≤ 90 then Char.ofNat (c.toNat + 32) else c

/-- Model of Rust `str::to_ascii_lowercase`. -/
def asciiLower (s : String) : String :=
  String.mk (s.data.map charAsciiLower)

/-- Drop the first `n` characters (model of `&s[n..]` on ASCII prefixes). -/
def strDrop (s : String) (n : Nat) : String :=
  String.mk (s.data.drop n)

/-- Model of Rust `str::split_whitespace`: whitespace-separated tokens,
empty tokens skipped.  `acc` holds the current token reversed. -/
def splitWsAux : List Char → List Char → List String
  | [], acc => if acc.isEmpty then [] else [String.mk acc.reverse]
  | c :: rest, acc =>
      if rustIsWs c then
        if acc.isEmpty then splitWsAux rest []
        else String.mk acc.reverse :: splitWsAux rest []
      else splitWsAux rest (c :: acc)

/-- Whitespace-separated tokens of a string (Rust `split_whitespace`). -/
def splitWs (s : String) : List String :=
  splitWsAux s.data []

/-- Model of Rust `str::split_once`: split at the first occurrence of `c`. -/
def splitOnceChar (s : String) (c : Char) : Option (String × String) :=
  if s.data.contains c then
    some (String.mk (s.data.takeWhile (fun d => d ≠ c)),
          String.mk ((s.data.dropWhile (fun d => d ≠ c)).tail))
  else none

/-- Model of Rust `str::lines`; `acc` holds the current line reversed.
Lines are terminated by `\n` (a `\r` directly before the `\n` is
stripped); a final unterminated line is kept, and a trailing terminator
produces no extra empty line. -/
def rustLinesAux : List Char → List Char → List (List Char)
  | [], acc => if acc.isEmpty then [] else [acc.reverse]
  | c :: rest, acc =>
      if c = '\n' then
        (if acc.head? = some '\r' then acc.tail else acc).reverse :: rustLinesAux rest []
      else rustLinesAux rest (c :: acc)

/-- The lines of a string, as Rust's `str::lines` yields them. -/
def rustLines (s : String) : List String :=
  (rustLinesAux s.data []).map String.mk

/-! ## Decimal formatting for block ids

`extract_blocks` assigns ids with `format!("block-{idx:03}")`: the index
in decimal, zero-padded to a minimum width of three.  `decDigitsAux` is a
fuel-based structural encoding of the decimal printer (the fuel `n + 1`
always suffices since the argument at least halves each step). -/

def decDigitsAux : Nat → Nat → List Char
  | 0, _ => []
  | fuel + 1, n =>
      if n < 10 then [Nat.digitChar n]
      else decDigitsAux fuel (n / 10) ++ [Nat.digitChar (n % 10)]

/-- The decimal digit characters of `n`, most significant first. -/
def decDigits (n : Nat) : List Char :=
  decDigitsAux (n + 1) n

/-- Decimal digits of `n` zero-padded on the left to width at least 3
(Rust `format!("{n:03}")`). -/
def pad3 (n : Nat) : List Char :=
  List.replicate (3 - (decDigits n).length) '0' ++ decDigits n

/-- The id string assigned to the `k`-th discovered block (1-based):
`format!("block-{k:03}")`. -/
def blockIdStr (k : Nat) : String :=
  String.mk (['b', 'l', 'o', 'c', 'k', '-'] ++ pad3 k)

/-- Decode a digit string back to the number it denotes (used to state
that ids are strictly increasing and pairwise distinct). -/
def decodeDigits (l : List Char) : Nat :=
  l.foldl (fun a c => 10 * a + (c.toNat - 48)) 0

/-- The numeric index carried by a block id (the digits after `block-`). -/
def idIndex (s : String) : Nat :=
  decodeDigits (s.data.drop 6)

/-! ## Data model: `CodeBlock` (src/markdown.rs) -/

/-- Normalized metadata for a runnable block discovered in markdown
(struct `CodeBlock` in src/markdown.rs). -/
structure CodeBlock where
  id : String
  name : Option String
  language : Option String
  headings : List String
  content : String
  skip_reason : Option String
deriving Repr, DecidableEq

/-- `CodeBlock::is_shell`: the language, trimmed and ASCII-lowercased, is
one of bash/sh/shell/zsh; a missing language defaults to shell. -/
def CodeBlock.is_shell (b : CodeBlock) : Bool :=
  match b.language with
  | some lang =>
      let l := asciiLower (strTrim lang)
      l = "bash" || l = "sh" || l = "shell" || l = "zsh"
  | none => true

/-! ## The extractor's auxiliary parsers (src/markdown.rs) -/

/-- A heading-stack entry (struct `Heading`). -/
structure Heading where
  level : Nat
  title : String
deriving Repr, DecidableEq

/-- `HeadingBuilder::push`: space-join a new inline fragment onto the
title buffer. -/
def hbPush (buf frag : String) : String :=
  if buf.isEmpty then buf ++ frag else buf ++ " " ++ frag

/-- `commit_heading`: retain only entries of strictly smaller level, then
push the new heading with the trimmed accumulated title. -/
def commit_heading (stack : List Heading) (buf : String) (level : Nat) : List Heading :=
  stack.filter (fun existing => decide (existing.level < level)) ++
    [{ level := level, title := strTrim buf }]

/-- Metadata parsed from a fence info string (struct `FenceMeta`). -/
structure FenceMeta where
  language : Option String := none
  name : Option String := none
  ignore : Bool := false
deriving Repr, DecidableEq

/-- One token of the fence info string folded into the accumulated
`FenceMeta` (the loop body of `parse_fence_meta`). -/
def fenceTokenStep (meta : FenceMeta) (token : String) : FenceMeta :=
  let token_lower := asciiLower token
  if token_lower = "runme:ignore" || token_lower = "runme:skip" then
    { meta with ignore := true }
  else
    match splitOnceChar token '=' with
    | some (key, value) =>
        if asciiLower key = "runme:name" && !(value.isEmpty) then
          { meta with name := some value }
        else meta
    | none =>
        if meta.language.isNone then { meta with language := some token_lower }
        else meta

/-- `parse_fence_meta`: fold the whitespace-separated info-string tokens. -/
def parse_fence_meta (info : String) : FenceMeta :=
  let raw := strTrim info
  if raw.isEmpty then {} else (splitWs raw).foldl fenceTokenStep {}

/-- Repeatedly strip a (non-empty) prefix, as Rust `trim_start_matches`
does.  Fuel-based: the fuel `l.length` suffices because each round
removes at least one character. -/
def stripPrefixAllAux : Nat → List Char → List Char → List Char
  | 0, l, _ => l
  | fuel + 1, l, pat =>
      if pat ≠ [] ∧ pat.isPrefixOf l then stripPrefixAllAux fuel (l.drop pat.length) pat
      else l

/-- Model of Rust `str::trim_start_matches`. -/
def trimStartAll (s pat : String) : String :=
  String.mk (stripPrefixAllAux s.data.length s.data pat.data)

/-- Model of Rust `str::trim_end_matches` (strip the suffix repeatedly,
implemented by reversal). -/
def trimEndAll (s pat : String) : String :=
  String.mk (stripPrefixAllAux s.data.length s.data.reverse pat.data.reverse).reverse

/-- Directive kind recognised in an HTML comment (enum `DirectiveKind`). -/
inductive DirectiveKind where
  | ignore
  | name
deriving Repr, DecidableEq

/-- The inner text of a directive comment: comment markers stripped, then
trimmed (the `inner` local of `parse_directive`). -/
def directiveInner (raw : String) : String :=
  strTrim (trimEndAll (trimStartAll raw "<!--") "-->")

/-- `parse_directive`: recognise `<!-- runme:... -->` comments.  Matching
is by case-insensitive prefix on the trimmed inner text; a name directive
takes everything after the first 10 characters, trimmed. -/
def parse_directive (html : String) : Option (DirectiveKind × Option String) :=
  let raw := strTrim html
  if strStartsWith raw "<!--" && strEndsWith raw "-->" then
    let inner := directiveInner raw
    let lower := asciiLower inner
    if strStartsWith lower "runme:ignore" || strStartsWith lower "runme:skip" then
      some (.ignore, none)
    else if strStartsWith lower "runme:name" then
      let nm := strTrim (strDrop inner 10)
      some (.name, if nm.isEmpty then none else some nm)
    else none
  else none

/-! ## The extractor as a fold over the event stream -/

/-- The fence kind of a code-block-open event (`pulldown_cmark::CodeBlockKind`). -/
inductive FenceKind where
  | fenced (info : String)
  | indented
deriving Repr, DecidableEq

/-- The structural markdown events `extract_blocks` consumes.  Heading
levels are already the `1..=6` depth that `heading_depth` computes from
`pulldown_cmark::HeadingLevel`.  `other` stands for every event the
source's `_ => {}` arm ignores. -/
inductive Event where
  | startHeading (level : Nat)
  | text (s : String)
  | code (s : String)
  | html (s : String)
  | startCodeBlock (kind : FenceKind)
  | endHeading (level : Nat)
  | endCodeBlock
  | other
deriving Repr, DecidableEq

/-- The extractor's loop state: the mutable locals of `extract_blocks`. -/
structure ExtractState where
  blocks : List CodeBlock
  heading_stack : List Heading
  active_heading : Option String
  pending_skip : Option String
  pending_name : Option String
  collecting_block : Bool
  block_language : Option String
  block_inline_name : Option String
  block_content : String
  idx : Nat
deriving Repr, DecidableEq

/-- The initial extractor state. -/
def initExtractState : ExtractState :=
  { blocks := [], heading_stack := [], active_heading := none,
    pending_skip := none, pending_name := none, collecting_block := false,
    block_language := none, block_inline_name := none, block_content := "",
    idx := 0 }

/-- One iteration of the `while let Some(event)` loop of `extract_blocks`. -/
def step (st : ExtractState) (e : Event) : Except String ExtractState :=
  match e with
  | .startHeading _ => .ok { st with active_heading := some "" }
  | .text s =>
      match st.active_heading with
      | some buf => .ok { st with active_heading := some (hbPush buf s) }
      | none =>
          if st.collecting_block then .ok { st with block_content := st.block_content ++ s }
          else .ok st
  | .code s =>
      if st.collecting_block then .ok { st with block_content := st.block_content ++ s }
      else
        match st.active_heading with
        | some buf => .ok { st with active_heading := some (hbPush buf s) }
        | none => .ok st
  | .html h =>
      match parse_directive h with
      | some (.ignore, v) =>
          .ok { st with pending_skip := some (v.getD "Marked with runme:ignore") }
      | some (.name, some n) => .ok { st with pending_name := some n }
      | some (.name, none) => .ok st
      | none => .ok st
  | .startCodeBlock kind =>
      match kind with
      | .fenced info =>
          let meta := parse_fence_meta info
          .ok { st with collecting_block := true, block_content := "",
                        block_inline_name := meta.name,
                        pending_skip :=
                          if meta.ignore then some "Marked with runme:ignore"
                          else st.pending_skip,
                        block_language := meta.language }
      | .indented =>
          .ok { st with collecting_block := true, block_content := "",
                        block_inline_name := none, block_language := none }
  | .endHeading level =>
      match st.active_heading with
      | some buf =>
          .ok { st with active_heading := none,
                        heading_stack := commit_heading st.heading_stack buf level }
      | none => .ok st
  | .endCodeBlock =>
      if st.collecting_block then
        let idx' := st.idx + 1
        .ok { st with
              blocks := st.blocks ++
                [{ id := blockIdStr idx',
                   name := match st.pending_name with
                           | some n => some n
                           | none => st.block_inline_name,
                   language := st.block_language,
                   headings := st.heading_stack.map (fun h => h.title),
                   content := strTrim st.block_content,
                   skip_reason := st.pending_skip }],
              pending_name := none,
              pending_skip := none,
              block_inline_name :=
                match st.pending_name with
                | some _ => st.block_inline_name
                | none => none,
              collecting_block := false,
              block_language := none,
              block_content := "",
              idx := idx' }
      else .error "encountered closing code block without start"
  | .other => .ok st

/-- Run the extractor loop over an event list. -/
def runEvents : ExtractState → List Event → Except String ExtractState
  | st, [] => .ok st
  | st, e :: es =>
      match step st e with
      | .error msg => .error msg
      | .ok st' => runEvents st' es

/-- `extract_blocks` over the event stream: fold the loop, then reject a
document that ends inside an unterminated code block. -/
def extract_blocks (events : List Event) : Except String (List CodeBlock) :=
  match runEvents initExtractState events with
  | .error msg => .error msg
  | .ok st =>
      if st.collecting_block then .error "markdown ended while inside code block"
      else .ok st.blocks

/-! ## Model of the external `shlex` crate's word splitting

`execute` calls `shlex::split(line)`; the crate tokenises with
POSIX-like quoting (single quotes, double quotes with the four escapable
characters, backslash escapes, `#` comments) and returns `None` when the
input ends inside a quote or after a dangling backslash.  The word
parser is encoded with explicit fuel (each round consumes at least one
character, so `length + 1` fuel never runs out). -/

/-- Body of `Shlex::parse_single`: consume until the closing quote. -/
def shlexParseSingle : List Char → List Char → Option (List Char × List Char)
  | [], _ => none
  | c :: rest, acc =>
      if c = Char.ofNat 39 then some (acc, rest)
      else shlexParseSingle rest (acc ++ [c])

/-- Body of `Shlex::parse_double`: consume until the closing quote,
processing the escapes `\$ \` + backquote + `\" \\` and line
continuations. -/
def shlexParseDouble : List Char → List Char → Option (List Char × List Char)
  | [], _ => none
  | c :: rest, acc =>
      if c = '"' then some (acc, rest)
      else if c = Char.ofNat 92 then
        match rest with
        | [] => none
        | d :: rest2 =>
            if d = '$' || d = Char.ofNat 96 || d = '"' || d = Char.ofNat 92 then
              shlexParseDouble rest2 (acc ++ [d])
            else if d = '\n' then shlexParseDouble rest2 acc
            else shlexParseDouble rest2 (acc ++ [Char.ofNat 92, d])
      else shlexParseDouble rest (acc ++ [c])

/-- Body of `Shlex::parse_word`: accumulate a word until unquoted
whitespace or end of input; a quoting error aborts. -/
def shlexParseWord : Nat → List Char → List Char → Option (List Char × List Char)
  | 0, _, _ => none
  | _ + 1, [], acc => some (acc, [])
  | fuel + 1, c :: rest, acc =>
      if c = '"' then
        match shlexParseDouble rest acc with
        | none => none
        | some (acc', rest') => shlexParseWord fuel rest' acc'
      else if c = Char.ofNat 39 then
        match shlexParseSingle rest acc with
        | none => none
        | some (acc', rest') => shlexParseWord fuel rest' acc'
      else if c = Char.ofNat 92 then
        match rest with
        | [] => none
        | d :: rest2 => shlexParseWord fuel rest2 (if d = '\n' then acc else acc ++ [d])
      else if c = ' ' || c = '\t' || c = '\n' then some (acc, rest)
      else shlexParseWord fuel rest (acc ++ [c])

/-- Drop a `#` comment: everything up to and including the next newline. -/
def shlexSkipComment : List Char → List Char
  | [] => []
  | c :: rest => if c = '\n' then rest else shlexSkipComment rest

/-- Skip inter-word whitespace and comments before the next word. -/
def shlexSkipWs : Nat → List Char → List Char
  | 0, l => l
  | _ + 1, [] => []
  | fuel + 1, c :: rest =>
      if c = ' ' || c = '\t' || c = '\n' then shlexSkipWs fuel rest
      else if c = '#' then shlexSkipWs fuel (shlexSkipComment rest)
      else c :: rest

/-- The word iterator of `Shlex`, collected: `None` on a quoting error. -/
def shlexWordsAux : Nat → List Char → Option (List (List Char))
  | 0, _ => none
  | fuel + 1, cs =>
      match shlexSkipWs (cs.length + 1) cs with
      | [] => some []
      | c :: rest =>
          match shlexParseWord (cs.length + 1) (c :: rest) [] with
          | none => none
          | some (w, rest') =>
              match shlexWordsAux fuel rest' with
              | none => none
              | some ws => some (w :: ws)

/-- Model of `shlex::split`. -/
def shlex_split (s : String) : Option (List String) :=
  match shlexWordsAux (s.data.length + 1) s.data with
  | none => none
  | some ws => some (ws.map String.mk)

/-! ## The execution engine (src/runner/mod.rs) -/

/-- `BlockStatus`: the terminal status of one block. -/
inductive BlockStatus where
  | passed
  | failed (exit_code : Option Int)
  | skipped
deriving Repr, DecidableEq

/-- `BlockReport`: the per-block report produced by `execute`.
`duration_ms` is modelled in milliseconds as a `Nat`. -/
structure BlockReport where
  id : String
  name : Option String
  headings : List String
  language : Option String
  sandbox : Option String
  duration_ms : Nat
  status : BlockStatus
  skip_reason : Option String
  stdout : Option String
  stderr : Option String
deriving Repr, DecidableEq

/-- `BlockReport::from_skip`: a Skipped report carrying the reason and no
sandbox label or transcripts. -/
def BlockReport.from_skip (block : CodeBlock) (reason : String) : BlockReport :=
  { id := block.id, name := block.name, headings := block.headings,
    language := block.language, sandbox := none, duration_ms := 0,
    status := .skipped, skip_reason := some reason,
    stdout := none, stderr := none }

/-- One stdout or stderr line chunk delivered to the `OutputSink`. -/
inductive Chunk where
  | stdout (s : String)
  | stderr (s : String)
deriving Repr, DecidableEq

/-- The observable behaviour of one `Sandbox::run` invocation: the
ordered chunks it pushed into the sink, and the returned
`CommandStatus` fields (`exit_code`, `success`, duration in ms). -/
structure RunOutcome where
  chunks : List Chunk
  exit_code : Option Int
  success : Bool
  duration : Nat
deriving Repr, DecidableEq

/-- A sandbox backend as `execute` observes it: its report label, and an
oracle giving the outcome of the `n`-th `run` invocation (the `Nat`
abstracts the backend's `&mut self` state) on a given argv.  A spawn
failure is an `Except.error`. -/
structure Sandbox where
  label : String
  run : Nat → List String → Except String RunOutcome

/-- `CommandTranscript`: the per-command transcript buffers. -/
structure CommandTranscript where
  command : String
  stdout : Option String
  stderr : Option String
deriving Repr, DecidableEq

/-- `CommandTranscript::append_stdout`: ignore empty chunks; otherwise
prefix the buffer with `$ <command>` on first use and append the chunk
plus a newline.  Also returns whether this was the first chunk (used
only by the live console streamer, which is I/O and not modelled). -/
def CommandTranscript.append_stdout (t : CommandTranscript) (chunk : String) :
    CommandTranscript × Bool :=
  if chunk.isEmpty then (t, false)
  else
    let first := t.stdout.isNone
    let entry := match t.stdout with
                 | none => "$ " ++ t.command ++ "\n"
                 | some e => e
    ({ t with stdout := some (entry ++ chunk ++ "\n") }, first)

/-- `CommandTranscript::append_stderr`, symmetric to `append_stdout`. -/
def CommandTranscript.append_stderr (t : CommandTranscript) (chunk : String) :
    CommandTranscript × Bool :=
  if chunk.isEmpty then (t, false)
  else
    let first := t.stderr.isNone
    let entry := match t.stderr with
                 | none => "$ " ++ t.command ++ "\n"
                 | some e => e
    ({ t with stderr := some (entry ++ chunk ++ "\n") }, first)

/-- Dispatch one sink callback (`TranscriptSink::on_stdout` /
`on_stderr`) to the transcript. -/
def transcriptStep (t : CommandTranscript) (ch : Chunk) : CommandTranscript :=
  match ch with
  | .stdout s => (t.append_stdout s).1
  | .stderr s => (t.append_stderr s).1

/-- Feed every chunk of a command's output through the transcript sink
in arrival order. -/
def runTranscript (command : String) (chunks : List Chunk) : CommandTranscript :=
  chunks.foldl transcriptStep { command := command, stdout := none, stderr := none }

/-- The mutable locals of `execute`'s command loop.  `trace` additionally
records each `sandbox.run` invocation as `(trimmed line, argv)` — the
pure rendering of the loop's effect on the backend. -/
structure LoopState where
  calls : Nat
  duration : Nat
  stdout_chunks : List String
  stderr_chunks : List String
  trace : List (String × List String)
deriving Repr, DecidableEq

/-- The loop state before the first command. -/
def initLoopState : LoopState :=
  { calls := 0, duration := 0, stdout_chunks := [], stderr_chunks := [], trace := [] }

/-- The `for (idx, raw_line) in block.content.lines().enumerate()` loop of
`execute`: skip blank and `#` lines, word-split, run the command,
accumulate transcripts and duration, and stop at the first failure.
`lineNo` is the 0-based index of the next line. -/
def execLoop (run : Nat → List String → Except String RunOutcome) (blockId : String) :
    Nat → List String → LoopState → Except String (LoopState × Option (Option Int))
  | _, [], st => .ok (st, none)
  | lineNo, raw_line :: rest, st =>
      let trimmed := strTrim raw_line
      if trimmed.isEmpty || strStartsWith trimmed "#" then
        execLoop run blockId (lineNo + 1) rest st
      else
        match shlex_split trimmed with
        | none => .error ("unable to parse line " ++ toString (lineNo + 1))
        | some args =>
            if args.isEmpty then execLoop run blockId (lineNo + 1) rest st
            else
              match run st.calls args with
              | .error cause =>
                  .error ("while executing " ++ blockId ++ " line " ++
                          toString (lineNo + 1) ++ ": " ++ cause)
              | .ok o =>
                  let t := runTranscript trimmed o.chunks
                  let st' : LoopState :=
                    { calls := st.calls + 1,
                      duration := st.duration + o.duration,
                      stdout_chunks := st.stdout_chunks ++ t.stdout.toList,
                      stderr_chunks := st.stderr_chunks ++ t.stderr.toList,
                      trace := st.trace ++ [(trimmed, args)] }
                  if o.success then execLoop run blockId (lineNo + 1) rest st'
                  else .ok (st', some o.exit_code)

/-- `execute` (src/runner/mod.rs): decide skips in order, then run the
command loop and assemble the report.  Besides the `BlockReport`, the
model returns the trace of `sandbox.run` invocations.  The
`stream_live` flag only drives the live console streamer (I/O), so it
does not influence the result. -/
def execute (block : CodeBlock) (sandbox : Sandbox) (stream_live : Bool) :
    Except String (BlockReport × List (String × List String)) :=
  match block.skip_reason with
  | some reason => .ok (BlockReport.from_skip block reason, [])
  | none =>
      if !block.is_shell then
        .ok (BlockReport.from_skip block
              ("Language '" ++ block.language.getD "shell" ++ "' unsupported yet; add a plugin"),
             [])
      else if (strTrim block.content).isEmpty then
        .ok (BlockReport.from_skip block "Block empty; nothing to execute", [])
      else
        match execLoop sandbox.run block.id 0 (rustLines block.content) initLoopState with
        | .error e => .error e
        | .ok (st, failure) =>
            if st.calls = 0 then
              .ok (BlockReport.from_skip block "Block only had comments/blank lines", st.trace)
            else
              .ok ({ id := block.id, name := block.name, headings := block.headings,
                     language := block.language, sandbox := some sandbox.label,
                     duration_ms := st.duration,
                     status := match failure with
                               | none => .passed
                               | some code => .failed code,
                     skip_reason := none,
                     stdout := if st.stdout_chunks.isEmpty then none
                               else some (String.intercalate "\n" st.stdout_chunks),
                     stderr := if st.stderr_chunks.isEmpty then none
                               else some (String.intercalate "\n" st.stderr_chunks) },
                   st.trace)

/-! ## The containerized backend (src/runner/docker.rs) -/

/-- `DockerSandbox`: mount directory, resolved image and extra flags. -/
structure DockerSandbox where
  mount_dir : String
  image : String
  extra_args : List String
deriving Repr, DecidableEq

/-- `DockerSandbox::new`.  `canonical` models the result of
`workdir.canonicalize()` (`some` on success, in which case it is the
absolute form of `workdir`); `env_image` models the value of the
`RUNME_DOCKER_IMAGE` environment variable at construction time.  The
explicit `image` beats the environment variable, which beats the
default `ubuntu:22.04`. -/
def DockerSandbox.new (workdir : String) (canonical : Option String)
    (image : Option String) (env_image : Option String)
    (extra_args : List String) : DockerSandbox :=
  { mount_dir := canonical.getD workdir,
    image := (match image with
              | some i => some i
              | none => env_image).getD "ubuntu:22.04",
    extra_args := extra_args }

/-- `Sandbox::label` for `DockerSandbox`. -/
def DockerSandbox.label (_ : DockerSandbox) : String :=
  "docker"

/-- The argv that `DockerSandbox::run` spawns (program first), exactly as
built by the chain of `.arg`/`.args` calls. -/
def DockerSandbox.command (s : DockerSandbox) (argv : List String) : List String :=
  ["docker", "run", "--rm", "--network=none", "-v", s.mount_dir ++ ":/workspace",
   "-w", "/workspace"] ++ s.extra_args ++ [s.image] ++ argv

/-! ## Concrete sample inputs used by the witnesses -/

/-- A sample event stream: two blocks with a heading and a name directive
between them. -/
def evC3 : List Event :=
  [.startHeading 1, .text "T", .endHeading 1,
   .startCodeBlock (.fenced "bash"), .text "a", .endCodeBlock,
   .html "<!-- runme:name x -->", .startHeading 2, .text "S", .endHeading 2,
   .startCodeBlock .indented, .text "b", .endCodeBlock]

/-- The blocks extracted from `evC3`. -/
def bsC3 : List CodeBlock :=
  [{ id := "block-001", name := none, language := some "bash",
     headings := ["T"], content := "a", skip_reason := none },
   { id := "block-002", name := some "x", language := none,
     headings := ["T", "S"], content := "b", skip_reason := none }]

/-- A sample heading stack with one entry per level. -/
def stackC4 : List Heading :=
  [{ level := 1, title := "A" }, { level := 2, title := "B" }, { level := 3, title := "C" }]

/-- The extractor state after processing `evC3`. -/
def stC3 : ExtractState :=
  { blocks := bsC3,
    heading_stack := [{ level := 1, title := "T" }, { level := 2, title := "S" }],
    active_heading := none, pending_skip := none, pending_name := none,
    collecting_block := false, block_language := none, block_inline_name := none,
    block_content := "", idx := 2 }

/-- An extractor state inside a block that has both a pending comment
name and an inline fence name. -/
def stC5 : ExtractState :=
  { blocks := [], heading_stack := [], active_heading := none,
    pending_skip := none, pending_name := some "from-comment",
    collecting_block := true, block_language := some "bash",
    block_inline_name := some "inline", block_content := "echo hi", idx := 0 }

/-- The state after closing the block of `stC5`. -/
def stC5' : ExtractState :=
  { blocks := [{ id := "block-001", name := some "from-comment",
                 language := some "bash", headings := [],
                 content := "echo hi", skip_reason := none }],
    heading_stack := [], active_heading := none,
    pending_skip := none, pending_name := none, collecting_block := false,
    block_language := none, block_inline_name := some "inline",
    block_content := "", idx := 1 }

/-! ## Derived specification helpers for the runner claims -/

/-- The transcript entries that a trace of sandbox invocations produces:
one entry per executed command whose transcript projection (stdout or
stderr) is non-empty, in trace order.  `base` is the invocation index of
the first trace entry; the oracle `run` recomputes each command's
outcome. -/
def outsFrom (proj : CommandTranscript → Option String)
    (run : Nat → List String → Except String RunOutcome) :
    Nat → List (String × List String) → List String
  | _, [] => []
  | base, (cmd, argv) :: tr =>
      (match run base argv with
       | .ok o => (proj (runTranscript cmd o.chunks)).toList
       | .error _ => []) ++ outsFrom proj run (base + 1) tr

/-- Count occurrences of the `$ ` command marker in a character list. -/
def countMarkersAux : List Char → Nat
  | '$' :: ' ' :: rest => countMarkersAux rest + 1
  | _ :: rest => countMarkersAux rest
  | [] => 0

/-- The number of `$ ` command markers in a transcript: the number of
segments obtained when splitting the transcript on the marker. -/
def countMarkers (s : String) : Nat :=
  countMarkersAux s.data

/-! ## Concrete sample blocks and sandboxes used by the runner witnesses -/

/-- A shell block carrying an explicit skip directive. -/
def bSkip : CodeBlock :=
  { id := "block-001", name := none, language := some "bash", headings := [],
    content := "echo hi", skip_reason := some "user opted out" }

/-- A block in an unsupported language. -/
def bLang : CodeBlock :=
  { id := "block-002", name := none, language := some "python", headings := [],
    content := "print(1)", skip_reason := none }

/-- A shell block whose content trims to nothing. -/
def bEmpty : CodeBlock :=
  { id := "block-003", name := none, language := some "bash", headings := [],
    content := "  ", skip_reason := none }

/-- A shell block containing only comments and blank lines. -/
def bComments : CodeBlock :=
  { id := "block-004", name := none, language := none, headings := [],
    content := "# documentation\n\n# more", skip_reason := none }

/-- A shell block whose first command fails and is followed by another
command. -/
def bFail : CodeBlock :=
  { id := "block-001", name := none, language := some "bash", headings := ["Tests"],
    content := "false\necho never", skip_reason := none }

/-- A shell block with a silent command followed by a printing command. -/
def bC9 : CodeBlock :=
  { id := "block-001", name := none, language := some "bash", headings := [],
    content := "true\necho hi", skip_reason := none }

/-- A shell block whose single line has an unbalanced quote. -/
def bParseErr : CodeBlock :=
  { id := "block-007", name := none, language := some "bash", headings := [],
    content := "echo \"unclosed", skip_reason := none }

/-- A sandbox whose commands all succeed silently. -/
def sbOk : Sandbox :=
  { label := "host",
    run := fun _ _ => .ok { chunks := [], exit_code := some 0, success := true, duration := 0 } }

/-- A sandbox whose commands all fail with exit code 1. -/
def sbFail1 : Sandbox :=
  { label := "host",
    run := fun _ _ => .ok { chunks := [], exit_code := some 1, success := false, duration := 3 } }

/-- A sandbox that cannot spawn any command. -/
def sbErr : Sandbox :=
  { label := "host", run := fun _ _ => .error "spawn failed" }

/-- A sandbox under which the first command is silent and every later
command prints one stdout line. -/
def sbC9 : Sandbox :=
  { label := "host",
    run := fun j _ =>
      if j = 0 then .ok { chunks := [], exit_code := some 0, success := true, duration := 1 }
      else .ok { chunks := [.stdout "hi"], exit_code := some 0, success := true, duration := 1 } }

/-- The report `execute` produces for `bC9` under `sbC9`. -/
def rC9 : BlockReport :=
  { id := "block-001", name := none, headings := [], language := some "bash",
    sandbox := some "host", duration_ms := 2, status := .passed,
    skip_reason := none, stdout := some "$ echo hi\nhi\n", stderr := none }

/-- The invocation trace `execute` produces for `bC9` under `sbC9`. -/
def trC9 : List (String × List String) :=
  [("true", ["true"]), ("echo hi", ["echo", "hi"])]


/-! ## Helper lemmas: decimal ids -/

lemma digitChar_toNat {d : Nat} (hd : d < 10) : (Nat.digitChar d).toNat = 48 + d := by
  interval_cases d <;> rfl

lemma decDigitsAux_ne_nil {fuel n : Nat} (h : n < fuel) : decDigitsAux fuel n ≠ [] := by
  cases fuel with
  | zero => omega
  | succ f =>
      simp only [decDigitsAux]
      split
      · simp
      · simp

lemma decDigitsAux_foldl {fuel : Nat} : ∀ {n : Nat}, n < fuel → ∀ a : Nat,
    (decDigitsAux fuel n).foldl (fun a c => 10 * a + (c.toNat - 48)) a =
      a * 10 ^ (decDigitsAux fuel n).length + n := by
  induction fuel with
  | zero => intro n h; omega
  | succ f ih =>
      intro n h a
      simp only [decDigitsAux]
      split
      · rename_i h10
        simp [List.foldl, digitChar_toNat h10]
        ring
      · rename_i h10
        push_neg at h10
        have hdiv : n / 10 < f := by
          have h1 : n / 10 < n := Nat.div_lt_self (by omega) (by omega)
          omega
        rw [List.foldl_append]
        rw [ih hdiv a]
        simp [digitChar_toNat (Nat.mod_lt n (by omega))]
        have hmod : (n % 10) < 10 := Nat.mod_lt n (by omega)
        have : 10 * (n / 10) + n % 10 = n := by omega
        ring_nf
        omega

lemma decodeDigits_decDigits (n : Nat) : decodeDigits (decDigits n) = n := by
  have h := @decDigitsAux_foldl (n + 1) n (Nat.lt_succ_self n) 0
  simpa [decodeDigits, decDigits] using h

lemma foldl_replicate_zero (k : Nat) (a : Nat) :
    (List.replicate k '0').foldl (fun a c => 10 * a + (c.toNat - 48)) a = a * 10 ^ k := by
  induction k generalizing a with
  | zero => simp
  | succ m ih =>
      rw [List.replicate_succ, List.foldl_cons]
      have hz : '0'.toNat - 48 = 0 := by decide
      rw [hz, Nat.add_zero, ih]
      ring

lemma decodeDigits_pad3 (n : Nat) : decodeDigits (pad3 n) = n := by
  unfold pad3 decodeDigits
  rw [List.foldl_append, foldl_replicate_zero]
  have h := @decDigitsAux_foldl (n + 1) n (Nat.lt_succ_self n) 0
  simpa [decDigits] using h

lemma idIndex_blockIdStr (k : Nat) : idIndex (blockIdStr k) = k := by
  show decodeDigits (List.drop 6 (['b','l','o','c','k','-'] ++ pad3 k)) = k
  have : List.drop 6 (['b','l','o','c','k','-'] ++ pad3 k) = pad3 k := rfl
  rw [this, decodeDigits_pad3]

lemma blockIdStr_injective {a b : Nat} (h : blockIdStr a = blockIdStr b) : a = b := by
  have := congrArg idIndex h
  rwa [idIndex_blockIdStr, idIndex_blockIdStr] at this

/-! ## Helper lemmas: the extractor loop -/

lemma step_blocks_idx {st st' : ExtractState} {e : Event} (h : step st e = .ok st') :
    (st'.blocks = st.blocks ∧ st'.idx = st.idx) ∨
    ∃ b, st'.blocks = st.blocks ++ [b] ∧ b.id = blockIdStr (st.idx + 1) ∧
      st'.idx = st.idx + 1 := by
  cases e <;> simp only [step] at h <;>
    (repeat' split at h) <;>
    first
      | exact Except.noConfusion h
      | (injection h with h; subst h;
         first
           | exact Or.inl ⟨rfl, rfl⟩
           | exact Or.inr ⟨_, rfl, rfl, rfl⟩)

lemma step_heading_stack {st st' : ExtractState} {e : Event} (h : step st e = .ok st') :
    st'.heading_stack = st.heading_stack ∨
    ∃ buf level, st'.heading_stack = commit_heading st.heading_stack buf level := by
  cases e <;> simp only [step] at h <;>
    (repeat' split at h) <;>
    first
      | exact Except.noConfusion h
      | (injection h with h; subst h;
         first
           | exact Or.inl rfl
           | exact Or.inr ⟨_, _, rfl⟩)

lemma runEvents_inv {P : ExtractState → Prop}
    (hstep : ∀ st e st', P st → step st e = .ok st' → P st') :
    ∀ {events : List Event} {st st' : ExtractState},
      P st → runEvents st events = .ok st' → P st' := by
  intro events
  induction events with
  | nil =>
      intro st st' hP h
      simp only [runEvents] at h
      injection h with h
      subst h
      exact hP
  | cons e es ih =>
      intro st st' hP h
      simp only [runEvents] at h
      cases he : step st e with
      | error m => rw [he] at h; exact Except.noConfusion h
      | ok st1 => rw [he] at h; exact ih (hstep _ _ _ hP he) h

lemma extract_inv_ids {events : List Event} {st' : ExtractState}
    (h : runEvents initExtractState events = .ok st') :
    st'.idx = st'.blocks.length ∧
    ∀ k, k < st'.blocks.length →
      st'.blocks[k]?.map (fun b => b.id) = some (blockIdStr (k + 1)) := by
  refine runEvents_inv
    (P := fun st => st.idx = st.blocks.length ∧
      ∀ k, k < st.blocks.length →
        st.blocks[k]?.map (fun b => b.id) = some (blockIdStr (k + 1)))
    ?_ ?_ h
  · intro st e st1 hP hstep
    rcases step_blocks_idx hstep with ⟨hb, hi⟩ | ⟨b, hb, hid, hi⟩
    · rw [hb, hi]; exact hP
    · constructor
      · rw [hb, hi, List.length_append, hP.1]; simp
      · intro k hk
        rw [hb] at hk ⊢
        rw [List.length_append, List.length_singleton] at hk
        by_cases hkl : k < st.blocks.length
        · rw [show (st.blocks ++ [b])[k]? = st.blocks[k]? by
            rw [List.getElem?_append]; simp [hkl]]
          exact hP.2 k hkl
        · have hk1 : k = st.blocks.length := by omega
          subst hk1
          rw [List.getElem?_concat_length]
          simp only [Option.map_some']
          rw [hid, ← hP.1]
  · exact ⟨rfl, fun k hk => by simp [initExtractState] at hk⟩

/-- Claim C3: for every input event stream, `extract_blocks` assigns the
k-th code block of discovery order (1-based) the id `block-` followed by
k zero-padded to a minimum width of 3 digits; the ids are pairwise
distinct and their numeric index is strictly increasing in discovery
order.  The statement is universal over all event streams, so the ids
are unaffected by intervening headings or directives. -/
theorem extract_blocks_id_assignment :
    ∀ (events : List Event) (bs : List CodeBlock), extract_blocks events = .ok bs →
      (∀ k, k < bs.length → bs[k]?.map (fun b => b.id) = some (blockIdStr (k + 1))) ∧
      (∀ (i j : Nat) (b1 b2 : CodeBlock),
        bs[i]? = some b1 → bs[j]? = some b2 → i ≠ j → b1.id ≠ b2.id) ∧
      (∀ (i j : Nat) (b1 b2 : CodeBlock),
        bs[i]? = some b1 → bs[j]? = some b2 → i < j →
        idIndex b1.id < idIndex b2.id) := by
  intro events bs h
  unfold extract_blocks at h
  cases hr : runEvents initExtractState events with
  | error m => rw [hr] at h; exact Except.noConfusion h
  | ok st =>
      rw [hr] at h
      have h2 : (if st.collecting_block = true then
            (Except.error "markdown ended while inside code block" :
              Except String (List CodeBlock))
          else Except.ok st.blocks) = Except.ok bs := h
      split at h2
      · exact Except.noConfusion h2
      · injection h2 with h2
        subst h2
        obtain ⟨-, hids⟩ := extract_inv_ids hr
        have hval : ∀ i b1, st.blocks[i]? = some b1 → b1.id = blockIdStr (i + 1) := by
          intro i b1 h1
          have hi : i < st.blocks.length := (List.getElem?_eq_some.mp h1).1
          have e1 := hids i hi
          rw [h1] at e1
          simpa using e1
        refine ⟨hids, ?_, ?_⟩
        · intro i j b1 b2 h1 h2 hij
          rw [hval i b1 h1, hval j b2 h2]
          intro he
          have := blockIdStr_injective he
          omega
        · intro i j b1 b2 h1 h2 hij
          rw [hval i b1 h1, hval j b2 h2, idIndex_blockIdStr, idIndex_blockIdStr]
          omega


/-- Witness for C3 at a concrete document. -/
theorem extract_blocks_id_assignment_witness :
    bsC3[0]?.map (fun b => b.id) = some (blockIdStr 1) ∧
    bsC3[1]?.map (fun b => b.id) = some (blockIdStr 2) :=
  ⟨(extract_blocks_id_assignment evC3 bsC3 rfl).1 0 (by decide),
   (extract_blocks_id_assignment evC3 bsC3 rfl).1 1 (by decide)⟩

lemma commit_heading_pairwise (stack : List Heading) (buf : String) (level : Nat)
    (hp : stack.Pairwise (fun a b => a.level ≠ b.level)) :
    (commit_heading stack buf level).Pairwise (fun a b => a.level ≠ b.level) := by
  rw [commit_heading, List.pairwise_append]
  refine ⟨hp.filter _, by simp, ?_⟩
  intro a ha b hb
  simp only [List.mem_singleton] at hb
  subst hb
  have := (List.mem_filter.mp ha).2
  simp only [decide_eq_true_eq] at this
  change a.level ≠ level
  omega

/-- Claim C4: the heading stack is maintained only by the pruning rule —
committing a heading of level L removes every entry of level ≥ L and
pushes the new heading last — so after any heading the stack holds at
most one entry per level and no entry of level ≥ L besides the new one,
an invariant holding throughout extraction from any event stream. -/
theorem heading_stack_pruning_invariant :
    (∀ (st : ExtractState) (e : Event) (st' : ExtractState), step st e = .ok st' →
      st'.heading_stack = st.heading_stack ∨
      ∃ buf level, st'.heading_stack = commit_heading st.heading_stack buf level) ∧
    (∀ (stack : List Heading) (buf : String) (level : Nat) (h : Heading),
      h ∈ commit_heading stack buf level ↔
        (h ∈ stack ∧ h.level < level) ∨ h = { level := level, title := strTrim buf }) ∧
    (∀ (stack : List Heading) (buf : String) (level : Nat),
      ∀ h ∈ (commit_heading stack buf level).dropLast, h.level < level) ∧
    (∀ (stack : List Heading) (buf : String) (level : Nat),
      stack.Pairwise (fun a b => a.level ≠ b.level) →
      (commit_heading stack buf level).Pairwise (fun a b => a.level ≠ b.level)) ∧
    (∀ (events : List Event) (st' : ExtractState),
      runEvents initExtractState events = .ok st' →
      st'.heading_stack.Pairwise (fun a b => a.level ≠ b.level)) := by
  refine ⟨fun st e st' h => step_heading_stack h, ?_, ?_,
    commit_heading_pairwise, ?_⟩
  · intro stack buf level h
    simp [commit_heading, List.mem_filter]
  · intro stack buf level h hmem
    rw [commit_heading, List.dropLast_concat] at hmem
    have := (List.mem_filter.mp hmem).2
    simpa using this
  · intro events st' h
    refine runEvents_inv
      (P := fun st => st.heading_stack.Pairwise (fun a b => a.level ≠ b.level)) ?_ ?_ h
    · intro st e st1 hP hstep
      rcases step_heading_stack hstep with heq | ⟨buf, level, heq⟩
      · rw [heq]; exact hP
      · rw [heq]; exact commit_heading_pairwise _ _ _ hP
    · simp [initExtractState]


/-- Witness for C4 at concrete stacks and a concrete document. -/
theorem heading_stack_pruning_invariant_witness :
    (stC3.heading_stack = stC3.heading_stack ∨
      ∃ buf level, stC3.heading_stack = commit_heading stC3.heading_stack buf level) ∧
    ({ level := 1, title := "A" } ∈ commit_heading stackC4 "t" 2 ↔
      (({ level := 1, title := "A" } : Heading) ∈ stackC4 ∧ (1 : Nat) < 2) ∨
      ({ level := 1, title := "A" } : Heading) = { level := 2, title := strTrim "t" }) ∧
    ((1 : Nat) < 2) ∧
    (commit_heading stackC4 "t" 2).Pairwise (fun a b => a.level ≠ b.level) ∧
    stC3.heading_stack.Pairwise (fun a b => a.level ≠ b.level) :=
  ⟨heading_stack_pruning_invariant.1 stC3 .other stC3 rfl,
   heading_stack_pruning_invariant.2.1 stackC4 "t" 2 { level := 1, title := "A" },
   heading_stack_pruning_invariant.2.2.1 stackC4 "t" 2 { level := 1, title := "A" } (by decide),
   heading_stack_pruning_invariant.2.2.2.1 stackC4 "t" 2 (by decide),
   heading_stack_pruning_invariant.2.2.2.2 evC3 stC3 rfl⟩

/-- Claim C5: at block close, a pending comment-directive name beats the
inline fence name; the inline name is used only when no comment name is
pending; and the pending name/skip state is consumed (reset to `none`)
so it cannot apply to a later block. -/
theorem block_close_name_resolution :
    ∀ (st st' : ExtractState), st.collecting_block = true →
      step st .endCodeBlock = .ok st' →
      st'.blocks.length = st.blocks.length + 1 ∧
      (∀ blk : CodeBlock, st'.blocks.getLast? = some blk →
        (∀ n, st.pending_name = some n → blk.name = some n) ∧
        (st.pending_name = none → blk.name = st.block_inline_name) ∧
        blk.skip_reason = st.pending_skip) ∧
      st'.pending_name = none ∧ st'.pending_skip = none := by
  intro st st' hc h
  simp only [step, hc, if_true] at h
  injection h with h
  subst h
  refine ⟨by simp, ?_, rfl, rfl⟩
  intro blk hlast
  rw [List.getLast?_concat] at hlast
  injection hlast with hlast
  subst hlast
  refine ⟨?_, ?_, rfl⟩
  · intro n hn
    simp only [hn]
  · intro hn
    simp only [hn]


/-- Witness for C5: the comment name wins and the pending state is
consumed. -/
theorem block_close_name_resolution_witness :
    ({ id := "block-001", name := some "from-comment", language := some "bash",
       headings := [], content := "echo hi",
       skip_reason := none } : CodeBlock).name = some "from-comment" ∧
    stC5'.pending_name = none ∧ stC5'.pending_skip = none :=
  ⟨((block_close_name_resolution stC5 stC5' rfl rfl).2.1 _ rfl).1 "from-comment" rfl,
   (block_close_name_resolution stC5 stC5' rfl rfl).2.2.1,
   (block_close_name_resolution stC5 stC5' rfl rfl).2.2.2⟩

/-- Claim C10: directive comments are matched by case-insensitive prefix
on the trimmed inner text, not by exact match — any `runme:ignore`/
`runme:skip` prefix (arbitrary trailing characters allowed) yields the
pending skip reason `Marked with runme:ignore`, and a `runme:name`
prefix takes everything after the first 10 characters, trimmed, as the
pending name, an empty remainder setting no pending name. -/
theorem directive_comment_matching :
    ∀ (html : String) (st : ExtractState),
      strStartsWith (strTrim html) "<!--" = true →
      strEndsWith (strTrim html) "-->" = true →
      ((strStartsWith (asciiLower (directiveInner (strTrim html))) "runme:ignore" = true ∨
        strStartsWith (asciiLower (directiveInner (strTrim html))) "runme:skip" = true) →
        parse_directive html = some (.ignore, none) ∧
        step st (.html html) =
          .ok { st with pending_skip := some "Marked with runme:ignore" }) ∧
      (strStartsWith (asciiLower (directiveInner (strTrim html))) "runme:ignore" = false →
       strStartsWith (asciiLower (directiveInner (strTrim html))) "runme:skip" = false →
       strStartsWith (asciiLower (directiveInner (strTrim html))) "runme:name" = true →
        parse_directive html =
          some (.name,
            if (strTrim (strDrop (directiveInner (strTrim html)) 10)).isEmpty then none
            else some (strTrim (strDrop (directiveInner (strTrim html)) 10))) ∧
        ((strTrim (strDrop (directiveInner (strTrim html)) 10)).isEmpty = false →
          step st (.html html) =
            .ok { st with
                  pending_name := some (strTrim (strDrop (directiveInner (strTrim html)) 10)) }) ∧
        ((strTrim (strDrop (directiveInner (strTrim html)) 10)).isEmpty = true →
          step st (.html html) = .ok st)) := by
  intro html st h1 h2
  constructor
  · intro hig
    have hpd : parse_directive html = some (.ignore, none) := by
      unfold parse_directive
      rcases hig with hig | hig <;> simp [h1, h2, hig]
    refine ⟨hpd, ?_⟩
    simp [step, hpd]
  · intro hni hns hname
    have hpd : parse_directive html =
        some (.name,
          if (strTrim (strDrop (directiveInner (strTrim html)) 10)).isEmpty then none
          else some (strTrim (strDrop (directiveInner (strTrim html)) 10))) := by
      unfold parse_directive
      simp [h1, h2, hni, hns, hname]
    refine ⟨hpd, ?_, ?_⟩
    · intro hne
      simp only [step, hpd, hne]
      simp [hne]
    · intro he
      simp only [step, hpd, he]
      simp [he]

/-- Witness for C10: prefix matching with trailing characters, and the
`runme:name` remainder rule. -/
theorem directive_comment_matching_witness :
    (parse_directive "<!-- runme:ignored -->" = some (.ignore, none) ∧
      step initExtractState (.html "<!-- runme:ignored -->") =
        .ok { initExtractState with pending_skip := some "Marked with runme:ignore" }) ∧
    (parse_directive "<!-- runme:namefoo -->" = some (.name, some "foo") ∧
      step initExtractState (.html "<!-- runme:namefoo -->") =
        .ok { initExtractState with pending_name := some "foo" }) ∧
    (parse_directive "<!-- runme:name -->" = some (.name, none) ∧
      step initExtractState (.html "<!-- runme:name -->") = .ok initExtractState) :=
  ⟨(directive_comment_matching "<!-- runme:ignored -->" initExtractState rfl rfl).1
      (Or.inl rfl),
   ⟨((directive_comment_matching "<!-- runme:namefoo -->" initExtractState rfl rfl).2
      rfl rfl rfl).1,
    ((directive_comment_matching "<!-- runme:namefoo -->" initExtractState rfl rfl).2
      rfl rfl rfl).2.1 rfl⟩,
   ⟨((directive_comment_matching "<!-- runme:name -->" initExtractState rfl rfl).2
      rfl rfl rfl).1,
    ((directive_comment_matching "<!-- runme:name -->" initExtractState rfl rfl).2
      rfl rfl rfl).2.2 rfl⟩⟩

/-! ## Helper lemmas: the command loop -/

lemma intercalate_single (a : String) : String.intercalate "\n" [a] = a := rfl

lemma execLoop_comments {run : Nat → List String → Except String RunOutcome}
    {blockId : String} :
    ∀ (lines : List String) (n : Nat) (st : LoopState),
      (∀ l ∈ lines, ((strTrim l).isEmpty || strStartsWith (strTrim l) "#") = true) →
      execLoop run blockId n lines st = .ok (st, none) := by
  intro lines
  induction lines with
  | nil => intro n st _; rfl
  | cons l rest ih =>
      intro n st h
      have hl := h l (List.mem_cons_self l rest)
      simp only [execLoop, hl, if_true]
      exact ih (n + 1) st fun m hm => h m (List.mem_cons_of_mem l hm)

lemma execLoop_prepend_comments {run : Nat → List String → Except String RunOutcome}
    {blockId : String} :
    ∀ (pre : List String) (rest : List String) (n : Nat) (st : LoopState),
      (∀ l ∈ pre, ((strTrim l).isEmpty || strStartsWith (strTrim l) "#") = true) →
      execLoop run blockId n (pre ++ rest) st =
        execLoop run blockId (n + pre.length) rest st := by
  intro pre
  induction pre with
  | nil => intro rest n st _; rfl
  | cons l pre' ih =>
      intro rest n st h
      have hl := h l (List.mem_cons_self l pre')
      rw [List.cons_append]
      simp only [execLoop, hl, if_true]
      rw [ih rest (n + 1) st fun m hm => h m (List.mem_cons_of_mem l hm)]
      congr 1
      simp
      omega

lemma execLoop_error_shape {run : Nat → List String → Except String RunOutcome}
    {blockId : String} :
    ∀ (lines : List String) (n : Nat) (st : LoopState) (e : String),
      execLoop run blockId n lines st = .error e →
      (∃ m : Nat, e = "unable to parse line " ++ toString m) ∨
      (∃ (m : Nat) (c : String),
        e = "while executing " ++ blockId ++ " line " ++ toString m ++ ": " ++ c) := by
  intro lines
  induction lines with
  | nil => intro n st e h; exact Except.noConfusion h
  | cons l rest ih =>
      intro n st e h
      simp only [execLoop] at h
      split at h
      · exact ih _ _ _ h
      · split at h
        · injection h with h
          exact Or.inl ⟨n + 1, h.symm⟩
        · split at h
          · exact ih _ _ _ h
          · split at h
            · injection h with h
              exact Or.inr ⟨n + 1, _, h.symm⟩
            · split at h
              · exact ih _ _ _ h
              · exact Except.noConfusion h

lemma execLoop_total {run : Nat → List String → Except String RunOutcome}
    {blockId : String}
    (hrun : ∀ j argv, ∃ o, run j argv = .ok o) :
    ∀ (lines : List String) (n : Nat) (st : LoopState),
      (∀ l ∈ lines, shlex_split (strTrim l) ≠ none) →
      ∃ res, execLoop run blockId n lines st = .ok res := by
  intro lines
  induction lines with
  | nil => intro n st _; exact ⟨(st, none), rfl⟩
  | cons l rest ih =>
      intro n st h
      have hl := h l (List.mem_cons_self l rest)
      have hrest : ∀ m ∈ rest, shlex_split (strTrim m) ≠ none :=
        fun m hm => h m (List.mem_cons_of_mem l hm)
      simp only [execLoop]
      split
      · exact ih (n + 1) st hrest
      · cases hs : shlex_split (strTrim l) with
        | none => exact absurd hs hl
        | some args =>
            simp only [hs]
            split
            · exact ih (n + 1) st hrest
            · obtain ⟨o, ho⟩ := hrun st.calls args
              simp only [ho]
              split
              · exact ih (n + 1) _ hrest
              · exact ⟨_, rfl⟩

lemma execLoop_trace {run : Nat → List String → Except String RunOutcome}
    {blockId : String} :
    ∀ (lines : List String) (n : Nat) (st st' : LoopState) (f : Option (Option Int)),
      execLoop run blockId n lines st = .ok (st', f) →
      ∃ tr, st'.trace = st.trace ++ tr ∧
            st'.calls = st.calls + tr.length ∧
            st'.stdout_chunks =
              st.stdout_chunks ++ outsFrom (fun t => t.stdout) run st.calls tr ∧
            st'.stderr_chunks =
              st.stderr_chunks ++ outsFrom (fun t => t.stderr) run st.calls tr := by
  intro lines
  induction lines with
  | nil =>
      intro n st st' f h
      simp only [execLoop] at h
      injection h with h
      rw [Prod.mk.injEq] at h
      obtain ⟨h1, -⟩ := h
      subst h1
      exact ⟨[], by simp [outsFrom], by simp, by simp [outsFrom], by simp [outsFrom]⟩
  | cons l rest ih =>
      intro n st st' f h
      simp only [execLoop] at h
      split at h
      · exact ih _ _ _ _ h
      · split at h
        · exact Except.noConfusion h
        · rename_i args hargs
          split at h
          · exact ih _ _ _ _ h
          · split at h
            · exact Except.noConfusion h
            · rename_i o hrun
              split at h
              · obtain ⟨tr, htr, hc, ho, he⟩ := ih _ _ _ _ h
                refine ⟨(strTrim l, args) :: tr, ?_, ?_, ?_, ?_⟩
                · rw [htr]; simp
                · rw [hc]; simp; omega
                · rw [ho]
                  simp only [outsFrom, hrun]
                  simp
                · rw [he]
                  simp only [outsFrom, hrun]
                  simp
              · injection h with h
                rw [Prod.mk.injEq] at h
                obtain ⟨h1, -⟩ := h
                subst h1
                refine ⟨[(strTrim l, args)], by simp, by simp, ?_, ?_⟩
                · simp only [outsFrom, hrun]
                  simp
                · simp only [outsFrom, hrun]
                  simp

lemma transcript_fold_command :
    ∀ (chunks : List Chunk) (t : CommandTranscript),
      (chunks.foldl transcriptStep t).command = t.command := by
  intro chunks
  induction chunks with
  | nil => intro t; rfl
  | cons c rest ih =>
      intro t
      rw [List.foldl_cons, ih]
      cases c with
      | stdout s =>
          simp only [transcriptStep, CommandTranscript.append_stdout]
          split <;> rfl
      | stderr s =>
          simp only [transcriptStep, CommandTranscript.append_stderr]
          split <;> rfl

lemma transcript_fold_stdout_shape :
    ∀ (chunks : List Chunk) (t : CommandTranscript),
      (∀ s, t.stdout = some s →
        ∃ suf : List Char, s.data = ("$ " ++ t.command ++ "\n").data ++ suf) →
      ∀ s, (chunks.foldl
          (fun t ch =>
            match ch with
            | .stdout s => (t.append_stdout s).1
            | .stderr s => (t.append_stderr s).1) t).stdout = some s →
        ∃ suf : List Char, s.data = ("$ " ++ t.command ++ "\n").data ++ suf := by
  intro chunks
  induction chunks with
  | nil => intro t hP s hs; exact hP s hs
  | cons c rest ih =>
      intro t hP s hs
      rw [List.foldl_cons] at hs
      cases c with
      | stdout s0 =>
          simp only [transcriptStep] at hs
          by_cases h0 : s0.isEmpty
          · have heq : (t.append_stdout s0).1 = t := by
              simp [CommandTranscript.append_stdout, h0]
            rw [heq] at hs
            exact ih t hP s hs
          · have hcmd : (t.append_stdout s0).1.command = t.command := by
              simp [CommandTranscript.append_stdout, h0]
            have hP' : ∀ s1, (t.append_stdout s0).1.stdout = some s1 →
                ∃ suf : List Char, s1.data = ("$ " ++ t.command ++ "\n").data ++ suf := by
              intro s1 hs1
              simp only [CommandTranscript.append_stdout, h0] at hs1
              simp only [Bool.false_eq_true, if_false] at hs1
              cases ht : t.stdout with
              | none =>
                  rw [ht] at hs1
                  simp at hs1
                  refine ⟨(s0 ++ "\n").data, ?_⟩
                  rw [← hs1]
                  simp [String.data_append]
              | some e =>
                  rw [ht] at hs1
                  simp at hs1
                  obtain ⟨suf, hsuf⟩ := hP e ht
                  refine ⟨suf ++ (s0 ++ "\n").data, ?_⟩
                  rw [← hs1]
                  simp [String.data_append, hsuf]
            have hres := ih ((t.append_stdout s0).1) (by rw [hcmd]; exact hP') s hs
            rw [hcmd] at hres
            exact hres
      | stderr s0 =>
          simp only [transcriptStep] at hs
          have hcmd : (t.append_stderr s0).1.command = t.command := by
            simp only [CommandTranscript.append_stderr]
            split <;> rfl
          have hout : (t.append_stderr s0).1.stdout = t.stdout := by
            simp only [CommandTranscript.append_stderr]
            split <;> rfl
          have hP' : ∀ s1, (t.append_stderr s0).1.stdout = some s1 →
              ∃ suf : List Char, s1.data = ("$ " ++ t.command ++ "\n").data ++ suf := by
            intro s1 hs1
            rw [hout] at hs1
            exact hP s1 hs1
          have hres := ih ((t.append_stderr s0).1) (by rw [hcmd]; exact hP') s hs
          rw [hcmd] at hres
          exact hres

lemma runTranscript_stdout_shape {cmd : String} {chunks : List Chunk} {s : String}
    (h : (runTranscript cmd chunks).stdout = some s) :
    ∃ suf : List Char, s.data = ("$ " ++ cmd ++ "\n").data ++ suf := by
  exact transcript_fold_stdout_shape chunks
    { command := cmd, stdout := none, stderr := none } (by intro s1 hs1; cases hs1) s h

lemma outsFrom_mem {proj : CommandTranscript → Option String}
    {run : Nat → List String → Except String RunOutcome} :
    ∀ (tr : List (String × List String)) (base : Nat) (s : String),
      s ∈ outsFrom proj run base tr →
      ∃ p ∈ tr, ∃ o : RunOutcome, proj (runTranscript p.1 o.chunks) = some s := by
  intro tr
  induction tr with
  | nil => intro base s h; simp [outsFrom] at h
  | cons p tr' ih =>
      intro base s h
      obtain ⟨cmd, argv⟩ := p
      simp only [outsFrom] at h
      rw [List.mem_append] at h
      cases h with
      | inl h =>
          cases hrun : run base argv with
          | error c => rw [hrun] at h; simp at h
          | ok o =>
              rw [hrun] at h
              dsimp only at h
              have hval : proj (runTranscript cmd o.chunks) = some s := by
                cases hp : proj (runTranscript cmd o.chunks) with
                | none => rw [hp] at h; simp at h
                | some v =>
                    rw [hp] at h
                    simp at h
                    subst h
                    rfl
              exact ⟨(cmd, argv), List.mem_cons_self _ _, o, hval⟩
      | inr h =>
          obtain ⟨q, hq, o, ho⟩ := ih (base + 1) s h
          exact ⟨q, List.mem_cons_of_mem _ hq, o, ho⟩

/-- Claim C1: `execute` decides the terminal status by the first matching
rule of a fixed order — (1) an explicit `skip_reason` (verbatim, no
command run), (2) a non-shell language, (3) empty trimmed content,
(4) only blank/comment lines — with earlier rules beating later ones
(each conjunct assumes exactly that no earlier rule applies). -/
theorem execute_skip_rule_order :
    ∀ (b : CodeBlock) (sb : Sandbox) (live : Bool),
      (∀ r, b.skip_reason = some r →
        execute b sb live = .ok (BlockReport.from_skip b r, [])) ∧
      (b.skip_reason = none → b.is_shell = false →
        execute b sb live = .ok (BlockReport.from_skip b
          ("Language '" ++ b.language.getD "shell" ++ "' unsupported yet; add a plugin"),
          [])) ∧
      (b.skip_reason = none → b.is_shell = true → (strTrim b.content).isEmpty = true →
        execute b sb live =
          .ok (BlockReport.from_skip b "Block empty; nothing to execute", [])) ∧
      (b.skip_reason = none → b.is_shell = true → (strTrim b.content).isEmpty = false →
        (∀ l ∈ rustLines b.content,
          ((strTrim l).isEmpty || strStartsWith (strTrim l) "#") = true) →
        execute b sb live =
          .ok (BlockReport.from_skip b "Block only had comments/blank lines", [])) := by
  intro b sb live
  refine ⟨?_, ?_, ?_, ?_⟩
  · intro r hr
    simp [execute, hr]
  · intro hr hsh
    simp [execute, hr, hsh]
  · intro hr hsh he
    simp [execute, hr, hsh, he]
  · intro hr hsh he hall
    have hl := @execLoop_comments sb.run b.id (rustLines b.content) 0 initLoopState hall
    simp [execute, hr, hsh, he, hl]
    simp [initLoopState]

/-- Witness for C1: each of the four skip rules fires on a concrete
block, with no command invoked. -/
theorem execute_skip_rule_order_witness :
    execute bSkip sbErr false = .ok (BlockReport.from_skip bSkip "user opted out", []) ∧
    execute bLang sbErr false = .ok (BlockReport.from_skip bLang
      "Language 'python' unsupported yet; add a plugin", []) ∧
    execute bEmpty sbErr false =
      .ok (BlockReport.from_skip bEmpty "Block empty; nothing to execute", []) ∧
    execute bComments sbErr false =
      .ok (BlockReport.from_skip bComments "Block only had comments/blank lines", []) :=
  ⟨(execute_skip_rule_order bSkip sbErr false).1 "user opted out" rfl,
   (execute_skip_rule_order bLang sbErr false).2.1 rfl rfl,
   (execute_skip_rule_order bEmpty sbErr false).2.2.1 rfl rfl rfl,
   (execute_skip_rule_order bComments sbErr false).2.2.2 rfl rfl rfl (by decide)⟩

/-- Claim C2: fail-fast — when a block's first command fails, `execute`
returns `Failed` with that command's exit code, invokes no later
command (the invocation trace is exactly the failing command), and the
report's stdout/stderr are exactly the failing command's transcripts. -/
theorem execute_fail_fast :
    ∀ (b : CodeBlock) (sb : Sandbox) (live : Bool) (pre : List String) (l : String)
      (rest : List String) (args : List String) (o : RunOutcome),
      b.skip_reason = none → b.is_shell = true → (strTrim b.content).isEmpty = false →
      rustLines b.content = pre ++ l :: rest →
      (∀ p ∈ pre, ((strTrim p).isEmpty || strStartsWith (strTrim p) "#") = true) →
      ((strTrim l).isEmpty || strStartsWith (strTrim l) "#") = false →
      shlex_split (strTrim l) = some args → args.isEmpty = false →
      sb.run 0 args = .ok o → o.success = false →
      execute b sb live =
        .ok ({ id := b.id, name := b.name, headings := b.headings,
               language := b.language, sandbox := some sb.label,
               duration_ms := o.duration,
               status := .failed o.exit_code, skip_reason := none,
               stdout := (runTranscript (strTrim l) o.chunks).stdout,
               stderr := (runTranscript (strTrim l) o.chunks).stderr },
             [(strTrim l, args)]) := by
  intro b sb live pre l rest args o hr hsh he hlines hpre hcmt hsplit hargs hrun hsucc
  have hloop : execLoop sb.run b.id 0 (rustLines b.content) initLoopState =
      .ok ({ calls := 1, duration := o.duration,
             stdout_chunks := (runTranscript (strTrim l) o.chunks).stdout.toList,
             stderr_chunks := (runTranscript (strTrim l) o.chunks).stderr.toList,
             trace := [(strTrim l, args)] }, some o.exit_code) := by
    rw [hlines, execLoop_prepend_comments pre (l :: rest) 0 initLoopState hpre]
    simp only [execLoop, hcmt, Bool.false_eq_true, if_false, hsplit, hargs]
    have hc0 : initLoopState.calls = 0 := rfl
    rw [hc0, hrun]
    simp [hsucc, initLoopState]
  simp only [execute, hr, hsh, Bool.not_true, Bool.false_eq_true, if_false, he, hloop]
  simp
  constructor
  · cases (runTranscript (strTrim l) o.chunks).stdout <;> simp [intercalate_single]
  · cases (runTranscript (strTrim l) o.chunks).stderr <;> simp [intercalate_single]

/-- Witness for C2: `false` followed by `echo never` — the block fails
with exit code 1, only the first command is invoked, and the transcripts
are empty. -/
theorem execute_fail_fast_witness :
    execute bFail sbFail1 false =
      .ok ({ id := "block-001", name := none, headings := ["Tests"],
             language := some "bash", sandbox := some "host",
             duration_ms := 3, status := .failed (some 1), skip_reason := none,
             stdout := none, stderr := none },
           [("false", ["false"])]) :=
  execute_fail_fast bFail sbFail1 false [] "false" ["echo never"] ["false"]
    { chunks := [], exit_code := some 1, success := false, duration := 3 }
    rfl rfl rfl rfl (by intro p hp; cases hp) rfl rfl rfl rfl rfl

/-- Claim C6 (amended): `execute` never returns an error for an execution
outcome — whenever every command line word-splits and every backend run
returns an outcome, it produces a report, whatever the exit codes — and
the only hard errors it propagates are (a) a word-split failure, whose
message carries the 1-based line number but not the block id (the block
id is attached by the caller), and (b) a backend run failure, whose
context carries the block id and the line number. -/
theorem execute_error_conditions :
    ∀ (b : CodeBlock) (sb : Sandbox) (live : Bool),
      ((∀ j argv, ∃ o, sb.run j argv = .ok o) →
       (∀ l ∈ rustLines b.content, shlex_split (strTrim l) ≠ none) →
       ∃ out, execute b sb live = .ok out) ∧
      (∀ e, execute b sb live = .error e →
        (∃ m : Nat, e = "unable to parse line " ++ toString m) ∨
        (∃ (m : Nat) (c : String),
          e = "while executing " ++ b.id ++ " line " ++ toString m ++ ": " ++ c)) := by
  intro b sb live
  constructor
  · intro hrun hsplit
    cases hex : execute b sb live with
    | ok out => exact ⟨out, rfl⟩
    | error e =>
        exfalso
        unfold execute at hex
        split at hex
        · exact Except.noConfusion hex
        · split at hex
          · exact Except.noConfusion hex
          · split at hex
            · exact Except.noConfusion hex
            · split at hex
              · rename_i e' hloop
                obtain ⟨res, hres⟩ :=
                  execLoop_total hrun (rustLines b.content) 0 initLoopState hsplit
                rw [hloop] at hres
                exact Except.noConfusion hres
              · split at hex
                · exact Except.noConfusion hex
                · exact Except.noConfusion hex
  · intro e h
    unfold execute at h
    split at h
    · exact Except.noConfusion h
    · split at h
      · exact Except.noConfusion h
      · split at h
        · exact Except.noConfusion h
        · split at h
          · rename_i e' hloop
            injection h with h
            subst h
            exact execLoop_error_shape (rustLines b.content) 0 initLoopState e' hloop
          · split at h
            · exact Except.noConfusion h
            · exact Except.noConfusion h

/-- Counterexample for C6 as stated: a backend spawn failure also
propagates as a hard error even though every line word-splits, and the
word-split error message does not contain the block id. -/
theorem execute_error_conditions_counterexample :
    (execute bC9 sbErr false = .error "while executing block-001 line 1: spawn failed" ∧
     (∀ l ∈ rustLines bC9.content, shlex_split (strTrim l) ≠ none)) ∧
    (execute bParseErr sbOk false = .error "unable to parse line 1" ∧
     bParseErr.id = "block-007" ∧
     ¬ ("block-007".data <:+: "unable to parse line 1".data)) :=
  ⟨⟨rfl, by decide⟩, ⟨rfl, rfl, by decide⟩⟩

/-- Witness for C6 (amended) at concrete inputs: a run with successful
spawns yields a report, and a concrete word-split failure produces one
of the two error shapes. -/
theorem execute_error_conditions_witness :
    (∃ out, execute bC9 sbOk false = .ok out) ∧
    ((∃ m : Nat, "unable to parse line 1" = "unable to parse line " ++ toString m) ∨
     (∃ (m : Nat) (c : String),
       "unable to parse line 1" =
         "while executing " ++ bParseErr.id ++ " line " ++ toString m ++ ": " ++ c)) :=
  ⟨(execute_error_conditions bC9 sbOk false).1 (fun j argv => ⟨_, rfl⟩) (by decide),
   (execute_error_conditions bParseErr sbOk false).2 "unable to parse line 1" rfl⟩

/-- Claim C8: a Skipped report carries no stdout, no stderr and no
sandbox label, and its `skip_reason` is present; conversely a Passed or
Failed report has `skip_reason` absent. -/
theorem report_skip_field_invariants :
    ∀ (b : CodeBlock) (sb : Sandbox) (live : Bool) (r : BlockReport)
      (tr : List (String × List String)),
      execute b sb live = .ok (r, tr) →
      (r.status = .skipped →
        r.stdout = none ∧ r.stderr = none ∧ r.sandbox = none ∧ r.skip_reason ≠ none) ∧
      ((r.status = .passed ∨ ∃ c, r.status = .failed c) → r.skip_reason = none) := by
  intro b sb live r tr h
  have hskip : ∀ reason, r = BlockReport.from_skip b reason →
      (r.status = .skipped →
        r.stdout = none ∧ r.stderr = none ∧ r.sandbox = none ∧ r.skip_reason ≠ none) ∧
      ((r.status = .passed ∨ ∃ c, r.status = .failed c) → r.skip_reason = none) := by
    intro reason hr
    subst hr
    refine ⟨fun _ => ⟨rfl, rfl, rfl, by simp [BlockReport.from_skip]⟩, ?_⟩
    intro hc
    rcases hc with hc | ⟨c, hc⟩ <;> exact absurd hc (by simp [BlockReport.from_skip])
  unfold execute at h
  split at h
  · injection h with h
    rw [Prod.mk.injEq] at h
    exact hskip _ h.1.symm
  · split at h
    · injection h with h
      rw [Prod.mk.injEq] at h
      exact hskip _ h.1.symm
    · split at h
      · injection h with h
        rw [Prod.mk.injEq] at h
        exact hskip _ h.1.symm
      · split at h
        · exact Except.noConfusion h
        · split at h
          · injection h with h
            rw [Prod.mk.injEq] at h
            exact hskip _ h.1.symm
          · injection h with h
            rw [Prod.mk.injEq] at h
            obtain ⟨h1, -⟩ := h
            subst h1
            constructor
            · intro hst
              exfalso
              dsimp only at hst
              split at hst
              · exact BlockStatus.noConfusion hst
              · exact BlockStatus.noConfusion hst
            · intro _
              rfl

/-- Witness for C8: a concrete Skipped report has empty transcript and
label fields, and a concrete Passed report has no skip reason. -/
theorem report_skip_field_invariants_witness :
    ((BlockReport.from_skip bSkip "user opted out").stdout = none ∧
     (BlockReport.from_skip bSkip "user opted out").stderr = none ∧
     (BlockReport.from_skip bSkip "user opted out").sandbox = none ∧
     (BlockReport.from_skip bSkip "user opted out").skip_reason ≠ none) ∧
    rC9.skip_reason = none :=
  ⟨(report_skip_field_invariants bSkip sbErr false
      (BlockReport.from_skip bSkip "user opted out") [] rfl).1 rfl,
   (report_skip_field_invariants bC9 sbC9 false rC9 trC9 rfl).2 (Or.inl rfl)⟩

/-- Claim C9 (amended): a Passed report's concatenated stdout transcript
consists of exactly one segment per executed command that produced
stdout output — the `outsFrom` list has one entry per trace element
whose recomputed transcript is non-empty — and every segment starts with
`$ ` followed by that command's trimmed source line. -/
theorem passed_stdout_segments :
    ∀ (b : CodeBlock) (sb : Sandbox) (live : Bool) (r : BlockReport)
      (tr : List (String × List String)),
      execute b sb live = .ok (r, tr) → r.status = .passed →
      (r.stdout =
        if (outsFrom (fun t => t.stdout) sb.run 0 tr).isEmpty then none
        else some (String.intercalate "\n" (outsFrom (fun t => t.stdout) sb.run 0 tr))) ∧
      (∀ s ∈ outsFrom (fun t => t.stdout) sb.run 0 tr,
        ∃ p ∈ tr, ∃ suf : List Char, s.data = ("$ " ++ p.1 ++ "\n").data ++ suf) := by
  intro b sb live r tr h hp
  have hseg : ∀ s ∈ outsFrom (fun t => t.stdout) sb.run 0 tr,
      ∃ p ∈ tr, ∃ suf : List Char, s.data = ("$ " ++ p.1 ++ "\n").data ++ suf := by
    intro s hs
    obtain ⟨p, hptr, o, ho⟩ := outsFrom_mem tr 0 s hs
    have hcmd : (runTranscript p.1 o.chunks).command = p.1 :=
      transcript_fold_command o.chunks _
    obtain ⟨suf, hsuf⟩ := @runTranscript_stdout_shape p.1 o.chunks s ho
    exact ⟨p, hptr, suf, hsuf⟩
  refine ⟨?_, hseg⟩
  unfold execute at h
  split at h
  · injection h with h
    rw [Prod.mk.injEq] at h
    obtain ⟨h1, -⟩ := h
    subst h1
    exact absurd hp (by simp [BlockReport.from_skip])
  · split at h
    · injection h with h
      rw [Prod.mk.injEq] at h
      obtain ⟨h1, -⟩ := h
      subst h1
      exact absurd hp (by simp [BlockReport.from_skip])
    · split at h
      · injection h with h
        rw [Prod.mk.injEq] at h
        obtain ⟨h1, -⟩ := h
        subst h1
        exact absurd hp (by simp [BlockReport.from_skip])
      · split at h
        · exact Except.noConfusion h
        · split at h
          · injection h with h
            rw [Prod.mk.injEq] at h
            obtain ⟨h1, -⟩ := h
            subst h1
            exact absurd hp (by simp [BlockReport.from_skip])
          · rename_i st failure hloop _
            injection h with h
            rw [Prod.mk.injEq] at h
            obtain ⟨h1, h2⟩ := h
            subst h1
            subst h2
            obtain ⟨tr0, htr, hcalls, hout, herr⟩ :=
              execLoop_trace (rustLines b.content) 0 initLoopState st failure hloop
            have htr0 : st.trace = tr0 := by simpa [initLoopState] using htr
            have hout0 : st.stdout_chunks =
                outsFrom (fun t => t.stdout) sb.run 0 st.trace := by
              rw [htr0]
              simpa [initLoopState] using hout
            simp only [hout0]

/-- Counterexample for C9 as stated: two executed commands, one silent —
the Passed report's stdout has a single `$ ` segment, not one per
executed command. -/
theorem passed_stdout_segments_counterexample :
    execute bC9 sbC9 false = .ok (rC9, trC9) ∧ rC9.status = .passed ∧
    trC9.length = 2 ∧ rC9.stdout = some "$ echo hi\nhi\n" ∧
    countMarkers "$ echo hi\nhi\n" = 1 ∧ (1 : Nat) ≠ 2 :=
  ⟨rfl, rfl, rfl, rfl, rfl, by decide⟩

/-- Witness for C9 (amended) at the concrete two-command block. -/
theorem passed_stdout_segments_witness :
    (rC9.stdout =
      if (outsFrom (fun t => t.stdout) sbC9.run 0 trC9).isEmpty then none
      else some (String.intercalate "\n" (outsFrom (fun t => t.stdout) sbC9.run 0 trC9))) ∧
    (∀ s ∈ outsFrom (fun t => t.stdout) sbC9.run 0 trC9,
      ∃ p ∈ trC9, ∃ suf : List Char, s.data = ("$ " ++ p.1 ++ "\n").data ++ suf) :=
  passed_stdout_segments bC9 sbC9 false rC9 trC9 rfl rfl

/-- Claim C7 (amended): the containerized backend spawns
`docker run --rm --network=none -v <workdir>:/workspace -w /workspace
[extra flags] <image> <argv...>` where the mount directory is the
canonicalized working directory (falling back to the given path when
canonicalization fails); the image is resolved with precedence explicit
configuration value > `RUNME_DOCKER_IMAGE` environment override > the
fixed default `ubuntu:22.04`, the environment value being consulted only
when no explicit image is given; and the backend's label is `docker`. -/
theorem docker_command_and_image_resolution :
    ∀ (wd : String) (canon : Option String) (img env_img : Option String)
      (extra argv : List String) (i e : String),
      (DockerSandbox.new wd canon img env_img extra).command argv =
        ["docker", "run", "--rm", "--network=none", "-v",
         (canon.getD wd) ++ ":/workspace", "-w", "/workspace"] ++ extra ++
        [(DockerSandbox.new wd canon img env_img extra).image] ++ argv ∧
      (DockerSandbox.new wd canon (some i) env_img extra).image = i ∧
      (DockerSandbox.new wd canon none (some e) extra).image = e ∧
      (DockerSandbox.new wd canon none none extra).image = "ubuntu:22.04" ∧
      (DockerSandbox.new wd canon img env_img extra).extra_args = extra ∧
      (DockerSandbox.new wd canon img env_img extra).label = "docker" :=
  fun _ _ img _ _ _ _ _ =>
    ⟨rfl, rfl, by cases img <;> rfl, by cases img <;> rfl, rfl, rfl⟩

/-- Counterexample for C7 as stated: the backend's label is `docker`,
not `containerized`. -/
theorem docker_command_and_image_resolution_counterexample :
    (DockerSandbox.new "." none none none []).label = "docker" ∧
    "docker" ≠ "containerized" :=
  ⟨rfl, by decide⟩
